import Mathlib

/-!
# Verification of the OCR extraction pipeline in `src/main.py`

A shallow embedding of the extraction logic of the repository's `main.py`:
image preprocessing (`preprocess_image`), script detection (`detect_script`),
per-call language resolution and the hybrid per-line dictionary OCR
(`ocr_image`), the per-document loop (`extract_text_from_pdf`) and the
page-edit endpoint (`edit_page_text`).

The recognition engine (pytesseract) is modelled as a record of effectful
oracles returning `Except Unit _`: a `.error` value stands for a raised
Python exception.  Images are opaque handles that record their dimensions
and the crop operations applied to them; pixel-level preprocessing is
modelled separately at the pixel-list level.
-/

namespace OcrMain

/-! ## Images

`Img` is an opaque image handle.  `Img.pre` records an application of
`preprocess_image` (whose pixel-level semantics is modelled below);
`Img.crop` records `image.crop((l, t, r, b))`, whose PIL result has
width `r - l` and height `b - t`. -/

inductive Img : Type where
  | raw (id : Nat) (w h : Int)
  | pre (i : Img)
  | crop (i : Img) (l t r b : Int)
deriving DecidableEq, Repr

def Img.width : Img → Int
  | .raw _ w _ => w
  | .pre i => i.width
  | .crop _ l _ r _ => r - l

def Img.height : Img → Int
  | .raw _ _ h => h
  | .pre i => i.height
  | .crop _ _ t _ b => b - t

/-! ## Pixel-level preprocessing (`preprocess_image`, main.py lines 135-138)

`image.convert('L')` converts an RGB pixel to 8-bit luminance with PIL's
ITU-R 601-2 formula `L = (19595 R + 38470 G + 7471 B + 32768) >> 16`;
`image.point(lambda x: 0 if x < 128 else 255, '1')` then binarizes at the
fixed threshold 128.  An image is modelled as its list of RGB pixels. -/

def convertL (p : Nat × Nat × Nat) : Nat :=
  (19595 * p.1 + 38470 * p.2.1 + 7471 * p.2.2 + 32768) / 65536

def binarizePoint (x : Nat) : Nat :=
  if x < 128 then 0 else 255

def preprocess_image (pixels : List (Nat × Nat × Nat)) : List Nat :=
  (pixels.map convertL).map binarizePoint

/-! ## The recognition engine

Each field models one pytesseract entry point used by `main.py`; a
`.error ()` result models a raised exception. `image_to_data`'s `.ok none`
models a returned dict without a `'text'` key (main.py line 186). -/

/-- One entry of pytesseract's `image_to_data` output dict (parallel
arrays indexed by box): word text, confidence, `(block_num, par_num,
line_num)` grouping key and the box geometry. -/
structure TessWord : Type where
  text : String
  conf : Int
  block : Nat
  par : Nat
  line : Nat
  left : Int
  top : Int
  width : Int
  height : Int
deriving DecidableEq, Repr

structure Engine : Type where
  get_languages : Except Unit (List String)
  image_to_osd : Img → Except Unit String
  image_to_data : Img → String → Except Unit (Option (List TessWord))
  image_to_string : Img → String → Except Unit String

/-! ## String helpers

Structurally recursive models of the Python string operations used by
`main.py` (`str.split(sep)`, `str.split()`, `in`, `str.strip()`),
written over `List Char` so that concrete instances evaluate. -/

/-- Python `s.split(sep)` for a one-character separator: every gap
between separators is a piece, so `"".split(sep) == [""]` and
consecutive separators yield empty pieces. -/
def splitOnChar (sep : Char) (l : List Char) : List (List Char) :=
  l.foldr
    (fun c acc =>
      match acc with
      | [] => [[c]]
      | piece :: rest => if c = sep then [] :: piece :: rest else (c :: piece) :: rest)
    [[]]

/-- Python `s.split()` (no argument): split on whitespace runs; empty
pieces between consecutive whitespace characters are kept here and
dropped by the callers' filters, matching Python's dropped empties. -/
def splitWsAll (l : List Char) : List (List Char) :=
  l.foldr
    (fun c acc =>
      match acc with
      | [] => [[c]]
      | piece :: rest =>
        if c.isWhitespace then [] :: piece :: rest else (c :: piece) :: rest)
    [[]]

def beginsWith : List Char → List Char → Bool
  | [], _ => true
  | _ :: _, [] => false
  | p :: ps, c :: cs => p = c && beginsWith ps cs

/-- Python's substring test `pat in s`. -/
def containsSub (pat : List Char) : List Char → Bool
  | [] => pat.isEmpty
  | c :: cs => beginsWith pat (c :: cs) || containsSub pat cs

def strContains (s pat : String) : Bool :=
  containsSub pat.toList s.toList

/-- Python `s.strip()`: drop leading and trailing whitespace. -/
def pyStrip (s : String) : String :=
  String.mk (((s.toList.dropWhile Char.isWhitespace).reverse.dropWhile Char.isWhitespace).reverse)

/-! ## Script detection (`detect_script`, main.py lines 140-148) -/

/-- `detect_script`: parse the OSD report for a line containing
`"Script"` and return the text after its last `:`, stripped; on an
engine exception, or when no such line exists, return `"Latin"`.
The report string is split into lines (`osd.splitlines()`, modelled as
splitting on `'\n'`; other Unicode line breaks do not occur in OSD
reports, and a `'\r'` left on a piece is removed by the strip). -/
def detect_script (osd : Except Unit String) : String :=
  match osd with
  | .error _ => "Latin"
  | .ok report =>
    match (splitOnChar '\n' report.toList).find? (fun line => containsSub "Script".toList line) with
    | some line => pyStrip (String.mk ((splitOnChar ':' line).getLastD []))
    | none => "Latin"

/-! ## Language resolution (`ocr_image`, main.py lines 155-176) -/

def SCRIPT_LANG_MAP : List (String × String) :=
  [("Latin", "eng"), ("Meetei_Mayek", "mni"), ("Devanagari", "hin"), ("Bengali", "ben")]

/-- Python `SCRIPT_LANG_MAP.get(script, default)`. -/
def scriptLangGet (script : String) (dflt : String) : String :=
  match SCRIPT_LANG_MAP.find? (fun p => p.1 = script) with
  | some p => p.2
  | none => dflt

/-- Python `lang.split('+')` (line 160). -/
def splitPlus (lang : String) : List String :=
  (splitOnChar '+' lang.toList).map String.mk

/-- The codes of the requested spec that are installed
(`valid_langs = [l for l in requested_langs if l in available_languages]`). -/
def validLangs (lang : String) (avail : List String) : List String :=
  (splitPlus lang).filter (fun l => avail.contains l)

/-- Lines 165-174 of `main.py`: the final language code passed to the
engine, or `none` when the engine has no languages installed at all. -/
def resolveFinal (valid : List String) (avail : List String) : Option String :=
  if valid.isEmpty then
    if avail.contains "eng" then some "eng"
    else avail.head?
  else some (String.intercalate "+" valid)

/-- The whole resolver for an explicit (non-`"auto"`) spec: split on `+`,
keep installed codes in request order, join with `+`; fall back as in
`resolveFinal`. -/
def resolveLangs (lang : String) (avail : List String) : Option String :=
  resolveFinal (validLangs lang avail) avail

/-! ## Line classification (`ocr_image`, main.py lines 216-229) -/

/-- The fixed reference vocabulary `COMMON_ENG_WORDS` (main.py
lines 116-127); a Python set, so duplicate literals collapse and only
membership matters. -/
def COMMON_ENG_WORDS : List String :=
  ["the", "be", "to", "of", "and", "a", "in", "that", "have", "i", "it", "for", "not", "on", "with", "he", "as", "you", "do", "at",
   "this", "but", "his", "by", "from", "they", "we", "say", "her", "she", "or", "an", "will", "my", "one", "all", "would", "there",
   "their", "what", "so", "up", "out", "if", "about", "who", "get", "which", "go", "me", "when", "make", "can", "like", "time",
   "no", "just", "him", "know", "take", "people", "into", "year", "your", "good", "some", "could", "them", "see", "other", "than",
   "then", "now", "look", "only", "come", "its", "over", "think", "also", "back", "after", "use", "two", "how", "our", "work",
   "first", "well", "way", "even", "new", "want", "because", "any", "these", "give", "day", "most", "us", "writ", "petition",
   "civil", "court", "judgment", "order", "case", "versus", "union", "india", "state", "manipur", "respondents",
   "petitioner", "advocate", "counsel", "honble", "justice", "mr", "mrs", "shri", "smt", "disclaimer", "vernacular", "meant",
   "restricted", "litigant", "understand", "language", "purpose", "practical", "official", "original", "version", "authentic",
   "field", "execution", "implementation", "high", "imphal"]

def isEngLetter (c : Char) : Bool :=
  ('a' ≤ c && c ≤ 'z') || ('A' ≤ c && c ≤ 'Z')

/-- `re.sub(r'[^a-zA-Z]', '', t).lower()`: keep ASCII letters, lowercase. -/
def normalizeToken (t : String) : String :=
  String.mk ((t.toList.filter isEngLetter).map Char.toLower)

/-- The normalized token list of a line's provisional text:
Python `line.split()` (whitespace split, empties dropped), each token
normalized, empty results dropped. -/
def lineTokens (s : String) : List String :=
  (((splitWsAll s.toList).map String.mk).map normalizeToken).filter (fun t => t ≠ "")

def matchCount (s : String) : Nat :=
  ((lineTokens s).filter (fun t => COMMON_ENG_WORDS.contains t)).length

/-- The dictionary gate of main.py lines 224-229.  The Python source
compares IEEE doubles: `match_count / len(tokens) >= 0.2`; for every
token count below 2^52 that comparison agrees with the exact rational
comparison `5 * match_count ≥ len(tokens)` used here, because consecutive
fractions m/n differ from 1/5 by at least 1/(5n), far above the rounding
error of the division and of the literal `0.2`. -/
def lineIsEng (s : String) : Bool :=
  let tokens := lineTokens s
  if tokens.isEmpty then false
  else 5 * matchCount s ≥ tokens.length

/-! ## Hybrid line-based OCR (`ocr_image`, main.py lines 178-251) -/

/-- The grouping key `(data['block_num'][i], data['par_num'][i], data['line_num'][i])`. -/
def lineKey (w : TessWord) : Nat × Nat × Nat :=
  (w.block, w.par, w.line)

/-- Lexicographic comparison of grouping keys, as used by Python's
`sorted(lines.keys())` on 3-tuples. -/
def keyLE (a b : Nat × Nat × Nat) : Bool :=
  a.1 < b.1 || (a.1 = b.1 && (a.2.1 < b.2.1 || (a.2.1 = b.2.1 && a.2.2 ≤ b.2.2)))

def insertKey (k : Nat × Nat × Nat) : List (Nat × Nat × Nat) → List (Nat × Nat × Nat)
  | [] => [k]
  | x :: xs => if keyLE k x then k :: x :: xs else x :: insertKey k xs

/-- `sorted(lines.keys())`: the distinct grouping keys in ascending
lexicographic order (insertion sort models Python's `sorted`). -/
def sortKeys : List (Nat × Nat × Nat) → List (Nat × Nat × Nat)
  | [] => []
  | k :: ks => insertKey k (sortKeys ks)

/-- Python `min(xs)` / `max(xs)` on a non-empty list, with a default for
the (unreachable) empty case. -/
def listMinD : List Int → Int → Int
  | [], d => d
  | x :: xs, _ => xs.foldl min x

def listMaxD : List Int → Int → Int
  | [], d => d
  | x :: xs, _ => xs.foldl max x

structure Box : Type where
  left : Int
  top : Int
  right : Int
  bottom : Int
deriving DecidableEq, Repr

/-- Main.py lines 235-246: union bounding box of the line's tokens
(`min(left)`, `min(top)`, `max(left+width)`, `max(top+height)`), padded
by 5 pixels on each side and clamped to the image bounds. -/
def cropBox (ws : List TessWord) (image : Img) : Box :=
  let xMin := listMinD (ws.map (fun w => w.left)) 0
  let yMin := listMinD (ws.map (fun w => w.top)) 0
  let xMax := listMaxD (ws.map (fun w => w.left + w.width)) 0
  let yMax := listMaxD (ws.map (fun w => w.top + w.height)) 0
  { left := max 0 (xMin - 5), top := max 0 (yMin - 5),
    right := min image.width (xMax + 5), bottom := min image.height (yMax + 5) }

/-- The contribution of one grouped line to `final_text` (main.py
lines 214-249): skip lines whose joined text strips to empty; keep the
provisional text (plus `\n`) if the dictionary gate passes; otherwise
crop the padded box and re-OCR it with `mni`, an engine exception
propagating to `ocr_image`'s outer handler. -/
def lineContribution (eng : Engine) (image : Img) (ws : List TessWord) : Except Unit String :=
  let lineText := pyStrip (String.intercalate " " (ws.map TessWord.text))
  if lineText = "" then .ok ""
  else if lineIsEng lineText then .ok (lineText ++ "\n")
  else
    let b := cropBox ws image
    match eng.image_to_string (Img.crop image b.left b.top b.right b.bottom) "mni" with
    | .error e => .error e
    | .ok mniText => .ok (pyStrip mniText ++ "\n")

/-- The `for key in sorted_keys` loop accumulating `final_text`. -/
def hybridFold (eng : Engine) (image : Img) (valids : List TessWord) :
    List (Nat × Nat × Nat) → String → Except Unit String
  | [], acc => .ok acc
  | k :: ks, acc =>
    match lineContribution eng image (valids.filter (fun w => lineKey w == k)) with
    | .error e => .error e
    | .ok c => hybridFold eng image valids ks (acc ++ c)

/-- Main.py lines 189-251: drop boxes with sentinel confidence `-1`,
group the rest by `(block, par, line)` (grouping preserves the engine's
box order inside each line), walk the keys in sorted order. -/
def hybridText (eng : Engine) (image : Img) (ws : List TessWord) : Except Unit String :=
  let valids := ws.filter (fun w => w.conf ≠ -1)
  hybridFold eng image valids (sortKeys (valids.map lineKey).eraseDups) ""

/-- The guard of the hybrid path (main.py line 180):
`'mni' in valid_langs and 'eng' in valid_langs`. -/
def hybridCond (valid : List String) : Bool :=
  valid.contains "mni" && valid.contains "eng"

/-- The body of `ocr_image` inside its `try`: `.error` models a raised
exception reaching the outer handler, `.ok none` the explicit
`return None` when no language is installed at all. -/
def ocrBody (eng : Engine) (image : Img) (lang0 : String) : Except Unit (Option String) := do
  let avail ← eng.get_languages
  let lang := if lang0 = "auto" then scriptLangGet (detect_script (eng.image_to_osd image)) "eng"
              else lang0
  let valid := validLangs lang avail
  match resolveFinal valid avail with
  | none => pure none
  | some finalLang =>
    if hybridCond valid then
      match ← eng.image_to_data image "eng" with
      | none => do
        let s ← eng.image_to_string image finalLang
        pure (some s)
      | some ws => do
        let t ← hybridText eng image ws
        pure (some t)
    else do
      let s ← eng.image_to_string image finalLang
      pure (some s)

/-- `ocr_image` (main.py lines 150-256): any exception inside the body is
caught and turned into `None`. -/
def ocr_image (eng : Engine) (image : Img) (lang : String) : Option String :=
  match ocrBody eng image lang with
  | .ok r => r
  | .error _ => none

/-! ## Document assembly (`extract_text_from_pdf`, main.py lines 258-282) -/

structure Page : Type where
  page_number : Nat
  text : String
  status : String
deriving DecidableEq, Repr

structure Doc : Type where
  id : String
  source_file : String
  language : String
  page_count : Nat
  pages : List Page
deriving DecidableEq, Repr

/-- Python truthiness of the OCR result: `None` and `""` are falsy. -/
def truthyText : Option String → Bool
  | none => false
  | some s => s ≠ ""

/-- One entry of `result["pages"]` (main.py lines 276-280):
`text if text else ""` and `"success" if text else "ocr_failed"`. -/
def pageOf (i : Nat) (t : Option String) : Page :=
  { page_number := i + 1,
    text := if truthyText t then t.getD "" else "",
    status := if truthyText t then "success" else "ocr_failed" }

/-- The `for i, image in enumerate(images)` loop: preprocess, OCR, append
a page record; a page-level OCR failure only affects that page's entry. -/
def buildPages (eng : Engine) (lang : String) : Nat → List Img → List Page
  | _, [] => []
  | i, image :: rest =>
    pageOf i (ocr_image eng (Img.pre image) lang) :: buildPages eng lang (i + 1) rest

/-- `extract_text_from_pdf`: `raster` is the outcome of `pdf_to_images`
(whose `RuntimeError` propagates uncaught); an empty image list returns
`None`; otherwise one page entry per image, with
`lang = language or "auto"` (empty string is falsy). -/
def extract_text_from_pdf (eng : Engine) (raster : Except Unit (List Img))
    (language : String) (docId sourceName : String) : Except Unit (Option Doc) :=
  match raster with
  | .error e => .error e
  | .ok images =>
    if images.isEmpty then .ok none
    else .ok (some
      { id := docId, source_file := sourceName, language := language,
        page_count := images.length,
        pages := buildPages eng (if language = "" then "auto" else language) 0 images })

/-! ## Page editing (`edit_page_text`, main.py lines 438-457) -/

/-- The `for page in document["pages"]` loop with `break`: update the
first page whose `page_number` equals `n`, report whether one was found. -/
def updateFirst (n : Nat) (newText : String) : List Page → List Page × Bool
  | [] => ([], false)
  | p :: ps =>
    if p.page_number = n then
      ({ p with text := newText, status := "edited" } :: ps, true)
    else
      let r := updateFirst n newText ps
      (p :: r.1, r.2)

/-- `edit_page_text`: if no page matched, raise 404 "Page not found in
document" before `db.update` runs (the stored document is unchanged);
otherwise store the updated document. -/
def edit_page_text (doc : Doc) (n : Nat) (newText : String) : Except String Doc :=
  let r := updateFirst n newText doc.pages
  if r.2 then .ok { doc with pages := r.1 }
  else .error "Page not found in document"

/-! ## Theorems -/

/-- Claim C5: for every line region re-recognized in hybrid mode, the
padded union bounding box is clamped to the image, so the crop
satisfies `left ≥ 0`, `top ≥ 0`, `right ≤ imageWidth`,
`bottom ≤ imageHeight`. -/
theorem cropBox_within_bounds (ws : List TessWord) (image : Img) :
    0 ≤ (cropBox ws image).left ∧ 0 ≤ (cropBox ws image).top ∧
    (cropBox ws image).right ≤ image.width ∧ (cropBox ws image).bottom ≤ image.height := by
  refine ⟨?_, ?_, ?_, ?_⟩
  · exact le_max_left 0 _
  · exact le_max_left 0 _
  · exact min_le_left _ _
  · exact min_le_left _ _

/-- Claim C7: the preprocessor converts each pixel to single-channel
grayscale and binarizes it at the fixed threshold 128 (luminance < 128
maps to black 0, all other values to white 255), and it is
deterministic. -/
theorem preprocess_image_spec (pixels : List (Nat × Nat × Nat)) (i : Nat) :
    (preprocess_image pixels)[i]? =
      (pixels[i]?).map (fun p => if convertL p < 128 then 0 else 255)
    ∧ (∀ v ∈ preprocess_image pixels, v = 0 ∨ v = 255)
    ∧ preprocess_image pixels = preprocess_image pixels := by
  refine ⟨?_, ?_, rfl⟩
  · simp only [preprocess_image, List.getElem?_map]
    cases pixels[i]? <;> simp [binarizePoint]
  · intro v hv
    simp only [preprocess_image, List.mem_map] at hv
    obtain ⟨g, _, hg⟩ := hv
    by_cases h : g < 128
    · left; rw [← hg]; simp [binarizePoint, h]
    · right; rw [← hg]; simp [binarizePoint, h]

/-- Concrete instance of `preprocess_image_spec`: a dark pixel maps to
black and a bright pixel to white. -/
theorem preprocess_image_spec_witness :
    (preprocess_image [(10, 10, 10), (200, 200, 200)])[0]? = some 0
    ∧ ∀ v ∈ preprocess_image [(10, 10, 10), (200, 200, 200)], v = 0 ∨ v = 255 := by
  have h := preprocess_image_spec [(10, 10, 10), (200, 200, 200)] 0
  refine ⟨?_, h.2.1⟩
  rw [h.1]
  decide

/-- Claim C3: the classifier marks a line primary iff its normalized
token list is non-empty and the match ratio against the reference
vocabulary is at least 0.2; a line all of whose normalized tokens are in
the vocabulary has ratio 1 and is primary; a line with zero normalized
tokens is not-primary.  (The exact rational comparison coincides with
the source's IEEE-double `match_count / len(tokens) >= 0.2` for every
feasible token count; see `lineIsEng`.) -/
theorem lineIsEng_iff_ratio (s : String) :
    (lineIsEng s = true ↔
      lineTokens s ≠ [] ∧
        (0.2 : ℚ) ≤ (matchCount s : ℚ) / ((lineTokens s).length : ℚ))
    ∧ ((∀ t ∈ lineTokens s, COMMON_ENG_WORDS.contains t = true) → lineTokens s ≠ [] →
        (matchCount s : ℚ) / ((lineTokens s).length : ℚ) = 1 ∧ lineIsEng s = true)
    ∧ (lineTokens s = [] → lineIsEng s = false) := by
  have hratio : ∀ h : lineTokens s ≠ [],
      ((0.2 : ℚ) ≤ (matchCount s : ℚ) / ((lineTokens s).length : ℚ) ↔
        (lineTokens s).length ≤ 5 * matchCount s) := by
    intro h
    have hn : (0 : ℚ) < ((lineTokens s).length : ℚ) := by
      exact_mod_cast List.length_pos.mpr h
    rw [show (0.2 : ℚ) = 1 / 5 by norm_num, div_le_div_iff₀ (by norm_num) hn]
    constructor
    · intro hq
      have : ((lineTokens s).length : ℚ) ≤ 5 * (matchCount s : ℚ) := by linarith
      exact_mod_cast this
    · intro h5
      have : ((lineTokens s).length : ℚ) ≤ 5 * (matchCount s : ℚ) := by exact_mod_cast h5
      linarith
  refine ⟨?_, ?_, ?_⟩
  · by_cases h : lineTokens s = []
    · simp [lineIsEng, h]
    · rw [hratio h]
      simp [lineIsEng, List.isEmpty_iff, h, ge_iff_le]
  · intro hall h
    have hm : matchCount s = (lineTokens s).length := by
      unfold matchCount
      rw [List.filter_eq_self.mpr hall]
    have hn : ((lineTokens s).length : ℚ) ≠ 0 := by
      exact_mod_cast fun h0 => h (List.length_eq_zero.mp h0)
    constructor
    · rw [hm, div_self hn]
    · simp [lineIsEng, List.isEmpty_iff, h, hm]
      omega
  · intro h
    simp [lineIsEng, h]

/-- Concrete instance of `lineIsEng_iff_ratio`: an all-vocabulary line is
primary, an all-numeric line is not-primary. -/
theorem lineIsEng_iff_ratio_witness :
    lineIsEng "the court of imphal" = true ∧ lineIsEng "456 ..." = false :=
  ⟨((lineIsEng_iff_ratio "the court of imphal").2.1 (by decide) (by decide)).2,
   (lineIsEng_iff_ratio "456 ...").2.2 (by decide)⟩

/-- Claim C8: script detection never propagates an error: on an engine
exception it returns `"Latin"`; when no report line contains `"Script"`
it returns `"Latin"`; when some line does, it returns the text after the
last `:` of the first such line, stripped of surrounding whitespace. -/
theorem detect_script_total (report : String) :
    detect_script (.error ()) = "Latin"
    ∧ ((∀ l ∈ splitOnChar '\n' report.toList, containsSub "Script".toList l = false) →
        detect_script (.ok report) = "Latin")
    ∧ ((∃ l ∈ splitOnChar '\n' report.toList, containsSub "Script".toList l = true) →
        ∃ l, (splitOnChar '\n' report.toList).find? (fun x => containsSub "Script".toList x) = some l ∧
          detect_script (.ok report) = pyStrip (String.mk ((splitOnChar ':' l).getLastD []))) := by
  refine ⟨rfl, ?_, ?_⟩
  · intro hnone
    have hfind : (splitOnChar '\n' report.toList).find?
        (fun x => containsSub "Script".toList x) = none := by
      rw [List.find?_eq_none]
      intro l hl
      simpa using hnone l hl
    simp only [detect_script]
    rw [hfind]
  · intro hsome
    have hfind : ((splitOnChar '\n' report.toList).find?
        (fun x => containsSub "Script".toList x)).isSome := by
      rw [List.find?_isSome]
      obtain ⟨l, hl, hc⟩ := hsome
      exact ⟨l, hl, hc⟩
    obtain ⟨l, hl⟩ := Option.isSome_iff_exists.mp hfind
    refine ⟨l, hl, ?_⟩
    simp only [detect_script]
    rw [hl]

/-- Concrete instance of `detect_script_total` on a realistic OSD report
and on an engine failure. -/
theorem detect_script_total_witness :
    detect_script (.error ()) = "Latin"
    ∧ detect_script (.ok "nothing relevant here") = "Latin"
    ∧ detect_script
        (.ok "Page number: 0\nOrientation in degrees: 0\nScript: Meetei_Mayek\nScript confidence: 1.17")
        = "Meetei_Mayek" := by
  refine ⟨(detect_script_total "").1,
    (detect_script_total "nothing relevant here").2.1 (by decide), ?_⟩
  obtain ⟨l, hfind, hres⟩ :=
    (detect_script_total
        "Page number: 0\nOrientation in degrees: 0\nScript: Meetei_Mayek\nScript confidence: 1.17").2.2
      ⟨"Script: Meetei_Mayek".toList, by decide, by decide⟩
  have hl : l = "Script: Meetei_Mayek".toList := by
    have hconc : (splitOnChar '\n'
        ("Page number: 0\nOrientation in degrees: 0\nScript: Meetei_Mayek\nScript confidence: 1.17").toList).find?
        (fun x => containsSub "Script".toList x) = some "Script: Meetei_Mayek".toList := by decide
    rw [hconc] at hfind
    exact (Option.some.inj hfind).symm
  rw [hres, hl]
  decide

/-- Claim C6: for an explicit (non-`"auto"`) spec, the resolver splits on
`+`, keeps exactly the requested codes present in the capability set in
request order and joins them with `+`; when none is installed it falls
back to `eng` if installed, otherwise to some installed code. -/
theorem resolveLangs_spec (spec : String) (avail : List String) (_hspec : spec ≠ "auto") :
    (validLangs spec avail ≠ [] →
      resolveLangs spec avail = some (String.intercalate "+" (validLangs spec avail)))
    ∧ (validLangs spec avail = [] → avail.contains "eng" = true →
        resolveLangs spec avail = some "eng")
    ∧ (validLangs spec avail = [] → avail.contains "eng" = false → avail ≠ [] →
        ∃ c, c ∈ avail ∧ resolveLangs spec avail = some c) := by
  refine ⟨?_, ?_, ?_⟩
  · intro hne
    simp [resolveLangs, resolveFinal, List.isEmpty_iff, hne]
  · intro hemp heng
    have hmem : "eng" ∈ avail := by simpa using heng
    simp [resolveLangs, resolveFinal, List.isEmpty_iff, hemp, hmem]
  · intro hemp heng hav
    have hmem : "eng" ∉ avail := by simpa using heng
    cases avail with
    | nil => exact absurd rfl hav
    | cons a rest =>
      refine ⟨a, List.mem_cons_self a rest, ?_⟩
      simp [resolveLangs, resolveFinal, List.isEmpty_iff, hemp, hmem]

/-- Concrete instances of `resolveLangs_spec`: a mixed request keeps the
installed codes in order; an unknown code falls back to `eng`; with no
`eng` installed it falls back to an installed code. -/
theorem resolveLangs_spec_witness :
    resolveLangs "mni+eng" ["eng", "mni"] = some "mni+eng"
    ∧ resolveLangs "xyz" ["eng"] = some "eng"
    ∧ ∃ c, c ∈ ["ben", "hin"] ∧ resolveLangs "xyz" ["ben", "hin"] = some c := by
  refine ⟨?_, ?_, ?_⟩
  · have h := (resolveLangs_spec "mni+eng" ["eng", "mni"] (by decide)).1 (by decide)
    rw [h]; decide
  · exact (resolveLangs_spec "xyz" ["eng"] (by decide)).2.1 (by decide) (by decide)
  · exact (resolveLangs_spec "xyz" ["ben", "hin"] (by decide)).2.2 (by decide) (by decide) (by decide)

theorem buildPages_length (eng : Engine) (lang : String) :
    ∀ (i : Nat) (images : List Img), (buildPages eng lang i images).length = images.length := by
  intro i images
  induction images generalizing i with
  | nil => rfl
  | cons img rest ih => simp [buildPages, ih]

theorem buildPages_getElem (eng : Engine) (lang : String) :
    ∀ (i k : Nat) (images : List Img),
      (buildPages eng lang i images)[k]? =
        (images[k]?).map (fun img => pageOf (i + k) (ocr_image eng (Img.pre img) lang)) := by
  intro i k images
  induction images generalizing i k with
  | nil => simp [buildPages]
  | cons img rest ih =>
    cases k with
    | zero => simp [buildPages]
    | succ k =>
      simp only [buildPages, List.getElem?_cons_succ, ih (i + 1) k]
      have : i + 1 + k = i + (k + 1) := by omega
      rw [this]

/-- Claim C4: when rasterization succeeds with a non-empty page list, the
result is a document with exactly one page entry per rasterized image in
order, `pages[i].page_number = i + 1`, and `page_count = len(pages)`;
this holds for every engine, including ones whose calls all fail, so a
single page's failure never aborts the document. -/
theorem extract_pages_shape (eng : Engine) (images : List Img)
    (language docId sourceName : String) (h : images ≠ []) :
    ∃ doc : Doc,
      extract_text_from_pdf eng (.ok images) language docId sourceName = .ok (some doc)
      ∧ doc.page_count = images.length
      ∧ doc.pages.length = images.length
      ∧ ∀ i : Nat, i < images.length → (doc.pages[i]?).map Page.page_number = some (i + 1) := by
  refine ⟨{ id := docId, source_file := sourceName, language := language,
            page_count := images.length,
            pages := buildPages eng (if language = "" then "auto" else language) 0 images },
    ?_, rfl, ?_, ?_⟩
  · simp [extract_text_from_pdf, List.isEmpty_iff, h]
  · exact buildPages_length eng _ 0 images
  · intro i hi
    rw [buildPages_getElem eng _ 0 i images, List.getElem?_eq_getElem hi]
    simp [pageOf]

/-- Concrete instance of `extract_pages_shape`: a two-page document with
an engine that fails every call still yields two numbered page entries. -/
theorem extract_pages_shape_witness :
    ∃ doc : Doc,
      extract_text_from_pdf
          { get_languages := .error (), image_to_osd := fun _ => .error (),
            image_to_data := fun _ _ => .error (), image_to_string := fun _ _ => .error () }
          (.ok [Img.raw 0 8 8, Img.raw 1 8 8]) "eng" "d" "f" = .ok (some doc)
      ∧ doc.page_count = 2
      ∧ doc.pages.length = 2
      ∧ ∀ i : Nat, i < 2 → (doc.pages[i]?).map Page.page_number = some (i + 1) :=
  extract_pages_shape
    { get_languages := .error (), image_to_osd := fun _ => .error (),
      image_to_data := fun _ _ => .error (), image_to_string := fun _ _ => .error () }
    [Img.raw 0 8 8, Img.raw 1 8 8] "eng" "d" "f" (by decide)

theorem updateFirst_len (n : Nat) (t : String) :
    ∀ ps : List Page, (updateFirst n t ps).1.length = ps.length := by
  intro ps
  induction ps with
  | nil => rfl
  | cons p rest ih =>
    simp only [updateFirst]
    by_cases h : p.page_number = n
    · rw [if_pos h]
      simp
    · rw [if_neg h]
      simp [ih]

theorem updateFirst_not_found (n : Nat) (t : String) :
    ∀ ps : List Page, (∀ p ∈ ps, p.page_number ≠ n) → updateFirst n t ps = (ps, false) := by
  intro ps h
  induction ps with
  | nil => rfl
  | cons p rest ih =>
    simp only [updateFirst]
    rw [if_neg (h p (List.mem_cons_self p rest)),
      ih (fun q hq => h q (List.mem_cons_of_mem p hq))]

theorem updateFirst_found (n : Nat) (t : String) :
    ∀ (ps : List Page) (base : Nat),
      (∀ i : Nat, i < ps.length → (ps[i]?).map Page.page_number = some (base + i + 1)) →
      base + 1 ≤ n → n ≤ base + ps.length →
      (updateFirst n t ps).2 = true
      ∧ ∀ j : Nat, (updateFirst n t ps).1[j]? =
          if j = n - base - 1
          then (ps[j]?).map (fun p => { p with text := t, status := "edited" })
          else ps[j]? := by
  intro ps
  induction ps with
  | nil =>
    intro base _ hlo hhi
    simp at hhi
    omega
  | cons p rest ih =>
    intro base hnum hlo hhi
    have hp : p.page_number = base + 1 := by
      have := hnum 0 (by simp)
      simpa using this
    by_cases hn : p.page_number = n
    · have hnb : n = base + 1 := by omega
      simp only [updateFirst, if_pos hn]
      refine ⟨by simp, ?_⟩
      intro j
      cases j with
      | zero =>
        rw [if_pos (by omega)]
        simp
      | succ j =>
        rw [if_neg (by omega)]
        simp
    · have hlo' : base + 1 + 1 ≤ n := by omega
      have hnum' : ∀ i : Nat, i < rest.length →
          (rest[i]?).map Page.page_number = some (base + 1 + i + 1) := by
        intro i hi
        have := hnum (i + 1) (by simpa using Nat.succ_lt_succ hi)
        simp only [List.getElem?_cons_succ] at this
        rw [this]
        congr 1
        omega
      have hhi' : n ≤ base + 1 + rest.length := by
        simp at hhi
        omega
      obtain ⟨h2, hj⟩ := ih (base + 1) hnum' hlo' hhi'
      simp only [updateFirst, if_neg hn]
      refine ⟨h2, ?_⟩
      intro j
      cases j with
      | zero =>
        rw [if_neg (by omega)]
        simp
      | succ j =>
        simp only [List.getElem?_cons_succ]
        rw [hj j]
        by_cases hc : j = n - (base + 1) - 1
        · rw [if_pos hc, if_pos (by omega)]
        · rw [if_neg hc, if_neg (by omega)]

/-- Claim C9: on a canonically numbered stored document, editing page `n`
with `1 ≤ n ≤ pageCount` sets exactly that page's text and flips its
status to `edited`, leaving every other page and all other document
fields unchanged; editing a page number outside `1..pageCount` raises
`Page not found in document` before the store is updated, so the stored
document is not mutated. -/
theorem edit_page_text_frame (doc : Doc) (n : Nat) (t : String)
    (hnum : ∀ i : Nat, i < doc.pages.length →
      (doc.pages[i]?).map Page.page_number = some (i + 1))
    (hcount : doc.page_count = doc.pages.length) :
    (1 ≤ n → n ≤ doc.page_count →
      ∃ doc', edit_page_text doc n t = .ok doc'
        ∧ doc'.id = doc.id ∧ doc'.source_file = doc.source_file
        ∧ doc'.language = doc.language ∧ doc'.page_count = doc.page_count
        ∧ doc'.pages.length = doc.pages.length
        ∧ (doc'.pages[n - 1]?).map Page.text = some t
        ∧ (doc'.pages[n - 1]?).map Page.status = some "edited"
        ∧ (doc'.pages[n - 1]?).map Page.page_number = some n
        ∧ ∀ j : Nat, j ≠ n - 1 → doc'.pages[j]? = doc.pages[j]?)
    ∧ ((n = 0 ∨ doc.page_count < n) →
        edit_page_text doc n t = .error "Page not found in document") := by
  constructor
  · intro h1 hn
    have hfound := updateFirst_found n t doc.pages 0
      (by intro i hi; simpa using hnum i hi) (by omega) (by omega)
    have hidx : n - 1 < doc.pages.length := by omega
    have hat := hfound.2 (n - 1)
    rw [if_pos (by omega), List.getElem?_eq_getElem hidx] at hat
    refine ⟨{ doc with pages := (updateFirst n t doc.pages).1 }, ?_, rfl, rfl, rfl, rfl,
      updateFirst_len n t doc.pages, ?_, ?_, ?_, ?_⟩
    · show (if (updateFirst n t doc.pages).2 = true then
            Except.ok { doc with pages := (updateFirst n t doc.pages).1 }
          else (Except.error "Page not found in document" : Except String Doc)) =
          Except.ok { doc with pages := (updateFirst n t doc.pages).1 }
      rw [hfound.1]
      simp
    · rw [hat]; rfl
    · rw [hat]; rfl
    · rw [hat]
      have := hnum (n - 1) hidx
      rw [List.getElem?_eq_getElem hidx] at this
      simp at this ⊢
      omega
    · intro j hj
      have := hfound.2 j
      rw [if_neg (by omega)] at this
      exact this
  · intro h0
    have hnot : ∀ p ∈ doc.pages, p.page_number ≠ n := by
      intro p hp
      obtain ⟨⟨i, hi⟩, hget⟩ := List.get_of_mem hp
      rw [List.get_eq_getElem] at hget
      have : (doc.pages[i]?).map Page.page_number = some (i + 1) := hnum i hi
      rw [List.getElem?_eq_getElem hi] at this
      have hpi : (doc.pages[i]).page_number = i + 1 := by
        simpa using this
      rw [hget] at hpi
      omega
    rw [edit_page_text, updateFirst_not_found n t doc.pages hnot]
    rfl

/-- A concrete two-page stored document for `edit_page_text_frame`. -/
def sampleDoc : Doc :=
  { id := "doc-1", source_file := "a.pdf", language := "eng", page_count := 2,
    pages := [{ page_number := 1, text := "one", status := "success" },
              { page_number := 2, text := "two", status := "success" }] }

/-- Concrete instance of `edit_page_text_frame`: editing page 2 of a
two-page document succeeds and editing page 3 fails without mutation. -/
theorem edit_page_text_frame_witness :
    (∃ doc', edit_page_text sampleDoc 2 "new" = .ok doc'
      ∧ doc'.id = sampleDoc.id ∧ doc'.source_file = sampleDoc.source_file
      ∧ doc'.language = sampleDoc.language ∧ doc'.page_count = sampleDoc.page_count
      ∧ doc'.pages.length = sampleDoc.pages.length
      ∧ (doc'.pages[1]?).map Page.text = some "new"
      ∧ (doc'.pages[1]?).map Page.status = some "edited"
      ∧ (doc'.pages[1]?).map Page.page_number = some 2
      ∧ ∀ j : Nat, j ≠ 1 → doc'.pages[j]? = sampleDoc.pages[j]?)
    ∧ edit_page_text sampleDoc 3 "new" = .error "Page not found in document" :=
  ⟨(edit_page_text_frame sampleDoc 2 "new" (by decide) rfl).1 (by decide) (by decide),
   (edit_page_text_frame sampleDoc 3 "new" (by decide) rfl).2 (Or.inr (by decide))⟩

/-! ### Claim C2: zero installed languages -/

theorem ocr_image_no_languages (eng : Engine) (image : Img) (lang : String)
    (hzero : eng.get_languages = .ok []) :
    ocr_image eng image lang = none := by
  unfold ocr_image ocrBody
  rw [hzero]
  simp [Bind.bind, Except.bind, validLangs, resolveFinal, pure, Except.pure]

/-- An engine that reports zero installed languages. -/
def noLangEng : Engine :=
  { get_languages := .ok [],
    image_to_osd := fun _ => .error (),
    image_to_data := fun _ _ => .error (),
    image_to_string := fun _ _ => .error () }

/-- Claim C2 counterexample: with zero installed languages the extraction
does NOT fail — it still returns a Document whose single page carries a
per-page `ocr_failed` status, contradicting the claim that
`NoLanguageAvailable` is fatal for the whole extraction. -/
theorem no_languages_still_returns_document :
    extract_text_from_pdf noLangEng (.ok [Img.raw 0 9 9]) "eng" "doc-2" "b.pdf"
      = .ok (some
        { id := "doc-2", source_file := "b.pdf", language := "eng", page_count := 1,
          pages := [{ page_number := 1, text := "", status := "ocr_failed" }] }) := rfl

theorem buildPages_all_none (eng : Engine) (lang : String)
    (hall : ∀ (image : Img), ocr_image eng image lang = none) :
    ∀ (i : Nat) (images : List Img), ∀ p ∈ buildPages eng lang i images,
      p.status = "ocr_failed" ∧ p.text = "" := by
  intro i images
  induction images generalizing i with
  | nil => intro p hp; simp [buildPages] at hp
  | cons img rest ih =>
    intro p hp
    simp only [buildPages, List.mem_cons] at hp
    rcases hp with hp | hp
    · subst hp
      rw [hall (Img.pre img)]
      exact ⟨rfl, rfl⟩
    · exact ih (i + 1) p hp

/-- Claim C2 as amended: when the engine reports zero installed
languages, `ocr_image` returns `None` for every image and language, so
every page of the still-produced Document gets status `ocr_failed` and
empty text; the extraction is not aborted. -/
theorem no_languages_marks_all_pages_failed (eng : Engine) (images : List Img)
    (language docId sourceName : String)
    (hzero : eng.get_languages = .ok []) (hne : images ≠ []) :
    (∀ (image : Img) (lang : String), ocr_image eng image lang = none)
    ∧ ∃ doc : Doc,
        extract_text_from_pdf eng (.ok images) language docId sourceName = .ok (some doc)
        ∧ doc.pages.length = images.length
        ∧ ∀ p ∈ doc.pages, p.status = "ocr_failed" ∧ p.text = "" := by
  refine ⟨fun image lang => ocr_image_no_languages eng image lang hzero, ?_⟩
  refine ⟨{ id := docId, source_file := sourceName, language := language,
            page_count := images.length,
            pages := buildPages eng (if language = "" then "auto" else language) 0 images },
    ?_, buildPages_length eng _ 0 images, ?_⟩
  · simp [extract_text_from_pdf, List.isEmpty_iff, hne]
  · exact buildPages_all_none eng _
      (fun image => ocr_image_no_languages eng image _ hzero) 0 images

/-- Concrete instance of `no_languages_marks_all_pages_failed` on
`noLangEng` and a one-page document. -/
theorem no_languages_marks_all_pages_failed_witness :
    (∀ (image : Img) (lang : String), ocr_image noLangEng image lang = none)
    ∧ ∃ doc : Doc,
        extract_text_from_pdf noLangEng (.ok [Img.raw 0 9 9]) "eng" "doc-2" "b.pdf"
          = .ok (some doc)
        ∧ doc.pages.length = 1
        ∧ ∀ p ∈ doc.pages, p.status = "ocr_failed" ∧ p.text = "" := by
  have h := no_languages_marks_all_pages_failed noLangEng [Img.raw 0 9 9]
    "eng" "doc-2" "b.pdf" rfl (by decide)
  exact ⟨h.1, by simpa using h.2⟩

/-! ### Claim C1: per-line re-recognition failure in hybrid mode -/

theorem hybridFold_error (eng : Engine) (image : Img) (valids : List TessWord) :
    ∀ (ks : List (Nat × Nat × Nat)) (acc : String),
      (∃ k ∈ ks, lineContribution eng image (valids.filter (fun w => lineKey w == k)) = .error ()) →
      hybridFold eng image valids ks acc = .error () := by
  intro ks
  induction ks with
  | nil =>
    intro acc h
    obtain ⟨k, hk, _⟩ := h
    simp at hk
  | cons k0 rest ih =>
    intro acc h
    obtain ⟨k, hk, herr⟩ := h
    rw [hybridFold]
    cases hcl : lineContribution eng image (valids.filter (fun w => lineKey w == k0)) with
    | error e => cases e; rfl
    | ok c =>
      apply ih
      rcases List.mem_cons.mp hk with hkk | hmem
      · subst hkk
        rw [hcl] at herr
        cases herr
      · exact ⟨k, hmem, herr⟩

/-- Claim C1 as amended: in hybrid mode, a failure of the re-recognition
call for a single not-primary line is NOT absorbed locally — it
propagates to `ocr_image`'s outer handler, which returns `None`, and the
page is then assembled with empty text and status `ocr_failed` (the
document-level loop still continues with other pages). -/
theorem line_reocr_failure_fails_page (eng : Engine) (image : Img) (lang0 : String)
    (avail : List String) (ws : List TessWord)
    (hlang : lang0 ≠ "auto")
    (hal : eng.get_languages = .ok avail)
    (hcond : hybridCond (validLangs lang0 avail) = true)
    (hdata : eng.image_to_data image "eng" = .ok (some ws))
    (hfail : ∃ k ∈ sortKeys ((ws.filter (fun w => w.conf ≠ -1)).map lineKey).eraseDups,
        lineContribution eng image
          ((ws.filter (fun w => w.conf ≠ -1)).filter (fun w => lineKey w == k)) = .error ()) :
    ocr_image eng image lang0 = none
    ∧ ∀ i : Nat, pageOf i (ocr_image eng image lang0) =
        { page_number := i + 1, text := "", status := "ocr_failed" } := by
  have hvne : (validLangs lang0 avail).isEmpty = false := by
    rcases hc : validLangs lang0 avail with _ | ⟨a, rest⟩
    · rw [hc] at hcond
      simp [hybridCond] at hcond
    · rfl
  have hmain : ocr_image eng image lang0 = none := by
    unfold ocr_image ocrBody
    rw [hal]
    simp only [Bind.bind, Except.bind, if_neg hlang]
    rw [show resolveFinal (validLangs lang0 avail) avail
        = some (String.intercalate "+" (validLangs lang0 avail)) by
      simp [resolveFinal, hvne]]
    rw [hcond, hdata]
    simp only [if_true]
    rw [show hybridText eng image ws = .error () from
      hybridFold_error eng image (ws.filter (fun w => w.conf ≠ -1)) _ "" hfail]
  exact ⟨hmain, fun i => by rw [hmain]; rfl⟩

/-- An engine for the hybrid scenario whose re-recognition of a cropped
line region raises, while whole-image recognition would succeed. -/
def badEng : Engine :=
  { get_languages := .ok ["eng", "mni"],
    image_to_osd := fun _ => .error (),
    image_to_data := fun _ _ => .ok (some [⟨"zzzz", 90, 1, 1, 1, 10, 10, 50, 20⟩]),
    image_to_string := fun i _ =>
      match i with
      | Img.crop _ _ _ _ _ => .error ()
      | _ => .ok "whole-image text" }

/-- Claim C1 counterexample: `badEng` yields one segmented line whose
normalized text `"zzzz"` fails the dictionary gate; the single
re-recognition call on its cropped region raises, and the page is
reported `ocr_failed` with empty text instead of being assembled with an
empty string for that line. -/
theorem line_reocr_failure_not_isolated :
    ocr_image badEng (Img.pre (Img.raw 0 100 100)) "mni+eng" = none
    ∧ extract_text_from_pdf badEng (.ok [Img.raw 0 100 100]) "mni+eng" "doc-3" "c.pdf"
      = .ok (some
        { id := "doc-3", source_file := "c.pdf", language := "mni+eng", page_count := 1,
          pages := [{ page_number := 1, text := "", status := "ocr_failed" }] }) :=
  ⟨rfl, rfl⟩

/-- Concrete instance of `line_reocr_failure_fails_page` on `badEng`. -/
theorem line_reocr_failure_fails_page_witness :
    ocr_image badEng (Img.pre (Img.raw 0 100 100)) "mni+eng" = none
    ∧ pageOf 0 (ocr_image badEng (Img.pre (Img.raw 0 100 100)) "mni+eng") =
        { page_number := 1, text := "", status := "ocr_failed" } := by
  have h := line_reocr_failure_fails_page badEng (Img.pre (Img.raw 0 100 100)) "mni+eng"
    ["eng", "mni"] [⟨"zzzz", 90, 1, 1, 1, 10, 10, 50, 20⟩]
    (by decide) rfl (by decide) rfl
    ⟨(1, 1, 1), by decide, by rfl⟩
  exact ⟨h.1, h.2 0⟩

/-! ### Claim C10: an `"auto"` request never takes the hybrid path -/

/-- Every code the script-label table can yield (including the `"eng"`
default for unmapped labels) is one of four single codes. -/
theorem scriptLangGet_mem (script : String) :
    scriptLangGet script "eng" ∈ ["eng", "mni", "hin", "ben"] := by
  unfold scriptLangGet
  cases hf : SCRIPT_LANG_MAP.find? (fun p => p.1 = script) with
  | none => simp
  | some p =>
    have hmem := List.mem_of_find?_eq_some hf
    fin_cases hmem <;> simp

theorem hybridCond_of_single (code : String) (avail : List String)
    (hsplit : splitPlus code = [code]) (hne : ¬(code = "mni" ∧ code = "eng")) :
    hybridCond (validLangs code avail) = false := by
  unfold validLangs hybridCond
  rw [hsplit]
  cases h : avail.contains code with
  | false =>
    have hval : [code].filter (fun l => avail.contains l) = [] := by
      simp only [List.filter_cons, h, Bool.false_eq_true, if_false, List.filter_nil]
    rw [hval]
    rfl
  | true =>
    have hval : [code].filter (fun l => avail.contains l) = [code] := by
      simp only [List.filter_cons, h, if_true, List.filter_nil]
    rw [hval]
    by_cases hm : code = "mni"
    · subst hm
      decide
    · have hmb : (("mni" : String) == code) = false :=
        beq_eq_false_iff_ne.mpr (fun hc => hm hc.symm)
      simp [List.contains_cons, hmb]
      intro hc
      exact absurd hc.symm hm

theorem hybridCond_auto_false (script : String) (avail : List String) :
    hybridCond (validLangs (scriptLangGet script "eng") avail) = false := by
  have hcode := scriptLangGet_mem script
  simp only [List.mem_cons, List.not_mem_nil, or_false] at hcode
  rcases hcode with h | h | h | h <;> rw [h]
  · exact hybridCond_of_single "eng" avail (by decide) (by decide)
  · exact hybridCond_of_single "mni" avail (by decide) (by decide)
  · exact hybridCond_of_single "hin" avail (by decide) (by decide)
  · exact hybridCond_of_single "ben" avail (by decide) (by decide)

/-- The behaviour the claim ascribes to an `"auto"` request: resolve the
detected script through the fixed table to a single code, validate and
fall back as usual, and perform one whole-image recognition pass — no
per-line hybrid processing. -/
def singlePassAuto (eng : Engine) (image : Img) : Option String :=
  match (do
      let avail ← eng.get_languages
      let code := scriptLangGet (detect_script (eng.image_to_osd image)) "eng"
      match resolveLangs code avail with
      | none => pure none
      | some finalLang => do
          let s ← eng.image_to_string image finalLang
          pure (some s) : Except Unit (Option String)) with
  | .ok r => r
  | .error _ => none

/-- Claim C10: for every engine and image, an `"auto"` request resolves
through the script-label table to a single code, the hybrid guard (which
needs both `eng` and `mni` among the validated codes) is false, and
`ocr_image` performs exactly one whole-image recognition pass. -/
theorem auto_request_single_pass (eng : Engine) (image : Img) (avail : List String) :
    hybridCond (validLangs (scriptLangGet (detect_script (eng.image_to_osd image)) "eng") avail)
      = false
    ∧ ocr_image eng image "auto" = singlePassAuto eng image := by
  refine ⟨hybridCond_auto_false _ avail, ?_⟩
  unfold ocr_image singlePassAuto ocrBody
  simp only [Bind.bind, Except.bind]
  cases hga : eng.get_languages with
  | error e => rfl
  | ok avail2 =>
    dsimp only
    simp only [if_true, resolveLangs,
      hybridCond_auto_false (detect_script (eng.image_to_osd image)) avail2,
      Bool.false_eq_true, if_false]

end OcrMain
